import Mathlib

/-!
Verification of the picospawn process-invocation layer.

The definitions below are a shallow embedding of the TypeScript sources:
`shellEscape`, `resolveParams`, `createSpawn`, `spawnSync`,
`defineOutputProperty`, `streamToString` (src/unnamed/part_000) and
`createAsyncGeneratorStream` (src/src/stream.ts).  Strings are modelled as
Lean `String` / `List Char`; nullable JavaScript values as `Option`; code
that can throw as `Except`.
-/

namespace Picospawn

/-! ## Shell quoter (`shellEscape`, src/unnamed/part_000 lines 22-34) -/

/-- The character class of the regex `[^A-Za-z0-9_\/:=-]`: `inClass c` holds
exactly when `c` does not match that negated class. -/
def inClass (c : Char) : Bool :=
  c.isAlpha || c.isDigit || c == '_' || c == '/' || c == ':' || c == '=' || c == '-'

/-- `arg.replace(/'/g, "'\\''")`: every single quote becomes the four
characters quote, backslash, quote, quote. -/
def escQuotes : List Char → List Char
  | [] => []
  | c :: r =>
    if c == '\'' then '\'' :: '\\' :: '\'' :: '\'' :: escQuotes r
    else c :: escQuotes r

/-- Wrapping in single quotes: `"'" + arg.replace(/'/g, "'\\''") + "'"`. -/
def quoteWrap (cs : List Char) : List Char :=
  '\'' :: (escQuotes cs ++ ['\''])

/-- `arg.replace(/^(?:'')+/g, '')`: strip the maximal leading run of
empty-quote pairs. -/
def stripLeadingPairs : List Char → List Char
  | '\'' :: '\'' :: r => stripLeadingPairs r
  | r => r

/-- `arg.replace(/\\'''/g, "\\'")`: each occurrence of backslash, quote,
quote, quote collapses to backslash, quote; scanning resumes after the
replacement, as with a JavaScript global regex replace. -/
def collapseEsc : List Char → List Char
  | '\\' :: '\'' :: '\'' :: '\'' :: r => '\\' :: '\'' :: collapseEsc r
  | c :: r => c :: collapseEsc r
  | [] => []

/-- `shellEscape` from src/unnamed/part_000: the identity on falsy (empty)
strings and on strings whose characters all lie in the safe class; otherwise
quote-wrap, strip leading empty pairs, collapse escape sequences. -/
def shellEscape (s : String) : String :=
  if s ≠ "" ∧ s.data.any (fun c => !(inClass c)) then
    String.mk (collapseEsc (stripLeadingPairs (quoteWrap s.data)))
  else s

mutual

/-- Modelled from the spec: POSIX shell word unquoting, covering exactly the
constructs `shellEscape` emits (single-quoted spans, in which every character
is literal, and backslash escapes outside quotes).  An unquoted space would
split the word, so it is rejected; `none` also marks an unterminated quote or
a trailing backslash.  This is the spec-side definition used to express the
round-trip property of claim C7; it is not part of the repository. -/
def posixUnquote : List Char → Option (List Char)
  | [] => some []
  | '\\' :: [] => none
  | '\\' :: c :: r => (posixUnquote r).map (fun l => c :: l)
  | '\'' :: r => posixSingle r
  | c :: r =>
    if c == ' ' then none
    else (posixUnquote r).map (fun l => c :: l)

/-- Modelled from the spec: the body of a POSIX single-quoted span, literal
up to the closing quote. -/
def posixSingle : List Char → Option (List Char)
  | [] => none
  | '\'' :: r => posixUnquote r
  | c :: r => (posixSingle r).map (fun l => c :: l)

end

/-- Re-parse a shell token as a POSIX shell would, producing the literal
word it denotes. -/
def posixParseToken (s : String) : Option String :=
  (posixUnquote s.data).map String.mk

/-- The string `it's`, built character by character. -/
def itsStr : String := String.mk ['i', 't', '\'', 's']

/-! ## Shell-mode placeholder substitution and command-line assembly
(`resolveParams` lines 55-59 and the `createSpawn` shell branch,
src/unnamed/part_000 lines 148-158) -/

/-- The JavaScript word-character class `\w` = `[A-Za-z0-9_]`, used by the
`\b` boundary in the regex `/%s\b/g`. -/
def isWordChar (c : Char) : Bool :=
  c.isAlpha || c.isDigit || c == '_'

/-- `args.shift() || ''`: pop the front of the argument list, substituting
the empty string when the list is exhausted (or when the popped value is
itself falsy, i.e. empty). -/
def shiftOrEmpty : List String → String × List String
  | [] => ("", [])
  | a :: t => ((if a = "" then "" else a), t)

/-- `command.replace(/%s\b/g, () => shellEscape(args.shift() || ''))` from
`resolveParams` (shell mode): scan left to right; an occurrence of `%s`
matches only when followed by a non-word character or the end of the string,
and each match is replaced by the shell-escaped next argument.  When the
boundary test fails the scan advances one character, as a regex engine does.

Returns the substituted command together with the list of arguments left
unconsumed by the placeholder replacement. -/
def replacePlaceholders : List Char → List String → List Char × List String
  | '%' :: 's' :: rest, args =>
    if (match rest with | [] => true | c :: _ => !(isWordChar c)) then
      let (v, args1) := shiftOrEmpty args
      let (out, rem) := replacePlaceholders rest args1
      ((shellEscape v).data ++ out, rem)
    else
      let (out, rem) := replacePlaceholders ('s' :: rest) args
      ('%' :: out, rem)
  | c :: rest, args =>
    let (out, rem) := replacePlaceholders rest args
    (c :: out, rem)
  | [], args => ([], args)

/-- The shell branch of `resolveParams`: substitute placeholders in the
command string; the argument list keeps whatever was not shift-consumed. -/
def resolveParamsShell (command : String) (args : List String) :
    String × List String :=
  let (cs, rem) := replacePlaceholders command.data args
  (String.mk cs, rem)

/-- The `createSpawn` (and `spawnSync`) block commented "Avoid DEP0190
warning from Node.js": in shell mode, when arguments remain, they are
shell-escaped, joined with spaces, appended to the command string, and the
argument array is emptied. -/
def appendShellArgs (command : String) (args : List String) :
    String × List String :=
  if args.isEmpty then (command, args)
  else (command ++ " " ++ String.intercalate " " (args.map shellEscape), [])

/-- The command string and argument array handed to `nodeSpawn` for a
shell-mode invocation: `resolveParams` placeholder substitution followed by
the DEP0190 append step. -/
def shellSpawnCall (command : String) (args : List String) :
    String × List String :=
  let (c, rem) := resolveParamsShell command args
  appendShellArgs c rem

/-! ## Non-shell command splitting (`resolveParams` lines 60-71) -/

/-- One round of the loop
`for (let i; (i = parsedArgs.indexOf('%s')) >= 0;) parsedArgs[i] = args.shift() || ''`
at a fixed position: the loop writes `args.shift() || ''` into the leftmost
`%s` cell, and when the written value is itself `%s` the next `indexOf`
finds the same cell again, so the loop keeps shifting arguments into that
cell until the written value differs from `%s` (exhaustion writes `''`,
which also ends the cycle).  `consumeArg` returns the value finally left in
the cell and the arguments remaining afterwards. -/
def consumeArg : List String → String × List String
  | [] => ("", [])
  | a :: t =>
    let v := if a = "" then "" else a
    if v = "%s" then consumeArg t
    else (v, t)

/-- The whole `indexOf`-based substitution loop.  Cells to the left of the
leftmost `%s` never contain `%s` (they are original non-placeholder tokens
or already-substituted values), so the loop is equivalent to processing the
token list left to right, running `consumeArg` at each `%s` token. -/
def substTokens : List String → List String → List String × List String
  | [], args => ([], args)
  | t :: ts, args =>
    if t = "%s" then
      let p := consumeArg args
      let q := substTokens ts p.2
      (p.1 :: q.1, q.2)
    else
      let q := substTokens ts args
      (t :: q.1, q.2)

/-- The substitution described by the claim (and by the spec, section 4.1
rule 4): each literal `%s` token is replaced by exactly one shift-consumed
argument (the empty string when the list is exhausted).  This is the
claim-side definition, to be compared with `substTokens`. -/
def specSubst : List String → List String → List String × List String
  | [], args => ([], args)
  | t :: ts, args =>
    if t = "%s" then
      let q := specSubst ts args.tail
      (args.headD "" :: q.1, q.2)
    else
      let q := specSubst ts args
      (t :: q.1, q.2)

/-- JavaScript `command.split(' ')`: split on every single space, keeping
empty segments; the result is never empty. -/
def splitOnSpace : List Char → List (List Char)
  | [] => [[]]
  | c :: r =>
    let rest := splitOnSpace r
    if c == ' ' then [] :: rest
    else (c :: rest.headD []) :: rest.tail

/-- `resolveParams` after argument normalization: shell mode substitutes
placeholders in the command string; otherwise a command containing a space
is split on spaces, the leading token becomes the command (a split is never
empty, so `headD` is exact), the trailing tokens run through the
substitution loop, and the remaining arguments are appended; a command
without spaces passes through unchanged. -/
def resolveParamsModel (command : String) (args : List String) (shell : Bool) :
    String × List String :=
  if shell then resolveParamsShell command args
  else if command.data.contains ' ' then
    let parts := (splitOnSpace command.data).map String.mk
    let (sub, rem) := substTokens parts.tail args
    (parts.headD "", sub ++ rem)
  else (command, args)

/-! ## Argument normalization (`resolveParams` lines 42-48:
`overridesOrArgs.flat(10).filter(Boolean)`) -/

/-- A raw argument entry: a string, one of the falsy markers `false`,
`null`, `undefined`, or a nested array (`PicospawnArgs` from
src/unnamed/part_001). -/
inductive RawArg : Type where
  | str (s : String)
  | fls
  | nul
  | undef
  | arr (xs : List RawArg)

/-- JavaScript truthiness of an entry, as tested by `filter(Boolean)`:
arrays are truthy, the markers are falsy, and a string is truthy exactly
when non-empty. -/
def truthyArg : RawArg → Bool
  | .str s => !(s = "")
  | .fls => false
  | .nul => false
  | .undef => false
  | .arr _ => true

/-- One level of array flattening: each directly nested array is spliced
into the surrounding list, every other entry is kept. -/
def flat1 : List RawArg → List RawArg
  | [] => []
  | .arr ys :: rest => ys ++ flat1 rest
  | .str s :: rest => .str s :: flat1 rest
  | .fls :: rest => .fls :: flat1 rest
  | .nul :: rest => .nul :: flat1 rest
  | .undef :: rest => .undef :: flat1 rest

/-- `Array.prototype.flat(d)`: flattening to depth `d` is `d` successive
one-level flattenings. -/
def jsFlat : Nat → List RawArg → List RawArg
  | 0, xs => xs
  | d + 1, xs => jsFlat d (flat1 xs)

/-- The normalization of `resolveParams`:
`overridesOrArgs.flat(10).filter(Boolean)`. -/
def normalizeArgs (raw : List RawArg) : List RawArg :=
  (jsFlat 10 raw).filter truthyArg

/-- All leaf entries (non-array nodes) of a nested argument list, in
left-to-right order. -/
def leavesList : List RawArg → List RawArg
  | [] => []
  | .arr ys :: rest => leavesList ys ++ leavesList rest
  | .str s :: rest => .str s :: leavesList rest
  | .fls :: rest => .fls :: leavesList rest
  | .nul :: rest => .nul :: leavesList rest
  | .undef :: rest => .undef :: leavesList rest

/-- Claim-side definition: the non-falsy leaf entries in their original
left-to-right order, which the claim says normalization returns. -/
def nonFalsyLeaves (raw : List RawArg) : List RawArg :=
  (leavesList raw).filter truthyArg

mutual

/-- Nesting depth of an entry: leaves have depth 0, an array is one deeper
than its deepest element. -/
def depthArg : RawArg → Nat
  | .arr ys => depthListAux ys + 1
  | .str _ => 0
  | .fls => 0
  | .nul => 0
  | .undef => 0

/-- Depth of the deepest element of a list. -/
def depthListAux : List RawArg → Nat
  | [] => 0
  | x :: xs => max (depthArg x) (depthListAux xs)

end

/-- The chain `arr (arr (... (str "a")))` with `n` array layers. -/
def nestedArg : Nat → RawArg
  | 0 => .str "a"
  | n + 1 => .arr [nestedArg n]

/-! ## Stdio transformer pipeline (`createAsyncGeneratorStream`,
src/src/stream.ts) -/

/-- A transformer generator with finite behaviour, suspended at a yield
point or finished: `yield v k` corresponds to a `yield` of value `v`
(`none` for `undefined`) resuming through `k` with the argument of the next
`next` call; `stop` is the end of the generator body. -/
inductive Gen : Type where
  | yield (v : Option String) (k : String → Gen)
  | stop

/-- The runtime state of the generator object held by the stream:
created-but-not-started, parked at a yield, or finished. -/
inductive GenState : Type where
  | unstarted (g : Gen)
  | suspended (k : String → Gen)
  | finished

/-- Run a generator body to its next suspension: the iterator result
`(done, value)` plus the successor state. -/
def stepGen : Gen → (Bool × Option String) × GenState
  | .yield v k => ((false, v), .suspended k)
  | .stop => ((true, none), .finished)

/-- `generator.next(arg)`: the first `next` starts the body and discards
its argument (the chunk already reached the transformer through the `init`
call); a suspended generator resumes with `arg`; a finished generator
reports `done`. -/
def genNext : GenState → String → (Bool × Option String) × GenState
  | .unstarted g, _ => stepGen g
  | .suspended k, a => stepGen (k a)
  | .finished, _ => ((true, none), .finished)

/-- Interaction events between the pipeline and the transformer: a chunk
delivered to it (via the `init` argument for the first chunk, via `next`
resumption afterwards), and the explicit close performed by
`generator?.return()`. -/
inductive Ev : Type where
  | feed (chunk : String)
  | finalize
deriving DecidableEq

/-- The observable state of the `Writable`: the lazily created generator,
the values written to the sink, and the trace of transformer interactions. -/
structure PipeState where
  gen : Option GenState
  sink : List String
  trace : List Ev

/-- The `write(chunk, encoding, callback)` handler of
`createAsyncGeneratorStream`: on the first chunk the generator is created
with the chunk (`generator ??= init(data)`), then `next(data)` runs it; a
yielded defined value of a not-done result is written to the sink. -/
def writeStep (init : String → Gen) (st : PipeState) (chunk : String) :
    PipeState :=
  let gs := match st.gen with
    | some g => g
    | none => GenState.unstarted (init chunk)
  let r := genNext gs chunk
  { gen := some r.2
    sink := st.sink ++ (match r.1 with
      | (false, some v) => [v]
      | _ => [])
    trace := st.trace ++ [Ev.feed chunk] }

/-- The `final(callback)` handler: `await generator?.return()` — the
generator is closed only if a chunk ever created it. -/
def finalStep (st : PipeState) : PipeState :=
  match st.gen with
  | none => st
  | some _ =>
    { st with gen := some GenState.finished, trace := st.trace ++ [Ev.finalize] }

/-- A whole stream lifetime: the `Writable` contract serializes the writes
in emission order, then runs `final` once at end-of-stream before the
stream completes, so the pipeline state at completion is `finalStep` of the
folded writes. -/
def runPipeline (init : String → Gen) (chunks : List String) : PipeState :=
  finalStep (chunks.foldl (writeStep init) ⟨none, [], []⟩)

/-! ## Async launcher settlement (`createSpawn`, src/unnamed/part_000
lines 160-188) -/

/-- JavaScript `String.prototype.trim` (whitespace stripped from both
ends), on the character list so that it evaluates by kernel reduction. -/
def jsTrim (s : String) : String :=
  String.mk
    (((s.data.dropWhile Char.isWhitespace).reverse.dropWhile
        Char.isWhitespace).reverse)

/-- `streamToString`: the subscription accumulates the chunks; the returned
thunk concatenates and trims them at read time. -/
def streamToString (chunks : List String) : Unit → String :=
  fun _ => jsTrim (String.join chunks)

/-- The value produced by reading an installed output accessor: the
captured text, or the JSON-decoded value (`α` abstracts the decoder's
result type; the decoder itself, `JSON.parse`, is external to the
repository and is passed in as a function). -/
inductive OutRead (α : Type) : Type where
  | text (s : String)
  | json (v : α)

/-- `defineOutputProperty(obj, name, read, options?)`: installs a getter
`() => options?.json ? JSON.parse(read()) : read()`.  The getter is a
thunk: nothing is read or decoded until it is forced, and a decode failure
is an exception at the read site, modelled as `Except.error`. -/
def defineOutputProperty (α : Type) (jsonParse : String → Except String α)
    (read : Unit → String) (json : Bool) : Unit → Except String (OutRead α) :=
  fun u =>
    if json then (jsonParse (read u)).map OutRead.json
    else Except.ok (OutRead.text (read u))

/-- The failure value built by `decorateError`: the pre-allocated call-site
error with its name overwritten to `ChildProcessError` and the exit
metadata attached (only the fields the claims mention are modelled). -/
structure ChildProcessErr where
  name : String
  exitCode : Option Int

/-- `decorateError` from src/unnamed/part_000 lines 80-98. -/
def decorateError (exitCode : Option Int) : ChildProcessErr :=
  { name := "ChildProcessError", exitCode := exitCode }

/-- The process object observable after settlement: the two installed
output accessors and the `error` field (`none` while never assigned). -/
structure SettledProc (α : Type) where
  stdoutGet : Unit → Except String (OutRead α)
  stderrGet : Unit → Except String (OutRead α)
  errorField : Option ChildProcessErr

/-- How the awaitable settles: rejected with the raw launch error, rejected
with a decorated error, or resolved with the process object. -/
inductive Settled (α : Type) : Type where
  | rejectedRaw (e : String)
  | rejected (p : SettledProc α) (e : ChildProcessErr)
  | resolved (p : SettledProc α)

/-- The process object carried by a non-launch-failure settlement. -/
def Settled.procOf {α : Type} : Settled α → Option (SettledProc α)
  | .rejectedRaw _ => none
  | .rejected p _ => some p
  | .resolved p => some p

/-- The `exit` listener of `createSpawn`: install the `stdout` accessor
with the caller's options and the `stderr` accessor with no options; when
the exit code differs from `0` (including `null` for a signal
termination), decorate the error, and unless `reject` is exactly `false`,
assign `proc.error` and reject; in every other case resolve the process
object — note that the `reject === false` path resolves *without*
assigning `proc.error`. -/
def onExit (α : Type) (jsonParse : String → Except String α)
    (outChunks errChunks : List String) (json : Bool) (reject : Option Bool)
    (exitCode : Option Int) : Settled α :=
  let p : SettledProc α :=
    { stdoutGet := defineOutputProperty α jsonParse (streamToString outChunks) json
      stderrGet := defineOutputProperty α jsonParse (streamToString errChunks) false
      errorField := none }
  if exitCode ≠ some 0 then
    let err := decorateError exitCode
    if reject ≠ some false then
      Settled.rejected { p with errorField := some err } err
    else Settled.resolved p
  else Settled.resolved p

/-- The terminating event of the child process: a spawn-transport error or
a process exit. -/
inductive ProcEvent : Type where
  | errored (e : String)
  | exited (code : Option Int)

/-- The two listeners registered by `createSpawn` inside the promise
executor: `proc.on('error', reject)` rejects with the raw, undecorated
error (no option is consulted); `proc.on('exit', ...)` is `onExit`. -/
def settleAsync (α : Type) (jsonParse : String → Except String α)
    (outChunks errChunks : List String) (json : Bool) (reject : Option Bool) :
    ProcEvent → Settled α
  | .errored e => Settled.rejectedRaw e
  | .exited code => onExit α jsonParse outChunks errChunks json reject code

/-! ## Sync launcher (`spawnSync`, src/unnamed/part_000 lines 238-283) -/

/-- A captured output value: a decoded string, or a raw byte buffer when
`encoding` is `null`/`buffer`. -/
inductive OutVal : Type where
  | str (s : String)
  | buf (bytes : List Nat)

/-- `.length` of a string or buffer. -/
def OutVal.len : OutVal → Nat
  | .str s => s.length
  | .buf b => b.length

/-- The structure returned by the native `spawnSync` call.  On a launch
failure the native call does not throw: it returns with `error` set and
`status`, `signal`, `stdout`, `stderr` all null. -/
structure SyncResult where
  status : Option Int
  signal : Option String
  stdout : Option OutVal
  stderr : Option OutVal
  error : Option String

/-- The options `spawnSync` consults after the native call
(`undefined`/`none` means the default). -/
structure SyncOpts where
  exit : Option Bool
  trimEnd : Option Bool

/-- The argument of `process.exit(signal ?? status)`: a signal name or a
numeric status. -/
inductive TermCode : Type where
  | sig (s : String)
  | num (n : Int)

/-- How the `spawnSync` wrapper finishes: terminating the current process
(recording whether `console.trace()` ran first), returning the bare stdout
value, or returning the full result structure. -/
inductive SyncOutcome : Type where
  | exited (code : TermCode) (tracePrinted : Bool)
  | returnedStdout (v : Option OutVal)
  | returnedResult (r : SyncResult)

/-- JavaScript `String.prototype.trimEnd`. -/
def jsTrimEnd (s : String) : String :=
  String.mk ((s.data.reverse.dropWhile Char.isWhitespace).reverse)

/-- The `trimEnd` step: unless `trimEnd` is exactly `false`, a textual
stdout is trimmed of trailing whitespace. -/
def trimStdout (opts : SyncOpts) (result : SyncResult) : SyncResult :=
  if opts.trimEnd ≠ some false then
    match result.stdout with
    | some (.str s) => { result with stdout := some (.str (jsTrimEnd s)) }
    | _ => result
  else result

/-- `if (result.stderr?.length) console.error(...)`: the list of values
emitted to the diagnostic stream. -/
def nonEmptyStderr (result : SyncResult) : List OutVal :=
  match result.stderr with
  | some v => if v.len ≠ 0 then [v] else []
  | none => []

/-- `signal ?? status` as the claim words it: the termination code. -/
def syncCode (result : SyncResult) : Option TermCode :=
  match result.signal with
  | some s => some (TermCode.sig s)
  | none => result.status.map TermCode.num

/-- JavaScript truthiness of `signal ?? status`: a non-empty signal name
or a non-zero status. -/
def codeTruthy : Option TermCode → Bool
  | some (.sig s) => !(s = "")
  | some (.num n) => !(n = 0)
  | none => false

/-- The `spawnSync` wrapper after the native call returns: trim the
stdout; with `exit` not disabled, echo a non-empty stderr to the
diagnostic stream, then terminate the current process with `signal ??
status` when that value is truthy (printing a stack trace first when the
trace environment flag is set) or return the stdout value; with `exit`
disabled, return the full (trimmed) result and never terminate.  The
second component is the list of values written to the diagnostic
stream. -/
def spawnSyncPost (traceEnv : Bool) (opts : SyncOpts) (result : SyncResult) :
    SyncOutcome × List OutVal :=
  if opts.exit ≠ some false then
    match syncCode (trimStdout opts result) with
    | some (TermCode.sig s) =>
      if s ≠ "" then
        (SyncOutcome.exited (TermCode.sig s) traceEnv,
          nonEmptyStderr (trimStdout opts result))
      else
        (SyncOutcome.returnedStdout (trimStdout opts result).stdout,
          nonEmptyStderr (trimStdout opts result))
    | some (TermCode.num n) =>
      if n ≠ 0 then
        (SyncOutcome.exited (TermCode.num n) traceEnv,
          nonEmptyStderr (trimStdout opts result))
      else
        (SyncOutcome.returnedStdout (trimStdout opts result).stdout,
          nonEmptyStderr (trimStdout opts result))
    | none =>
      (SyncOutcome.returnedStdout (trimStdout opts result).stdout,
        nonEmptyStderr (trimStdout opts result))
  else (SyncOutcome.returnedResult (trimStdout opts result), [])

/-- The `SpawnSyncReturns` value the native call produces when the command
cannot be started at all (e.g. executable not found). -/
def launchFailureResult (msg : String) : SyncResult :=
  { status := none, signal := none, stdout := none, stderr := none,
    error := some msg }

/-! ## Theorems for the claims -/

/-- C1 counterexample: the claim states that in shell mode the spawned
command line contains only the placeholder-substituted text and that the
unconsumed tail of the argument list does not appear in it.  For the command
`echo %s` with arguments `["a", "b"]`, substitution yields `echo a` leaving
`["b"]` unconsumed, yet the spawned command line is `echo a b`: the
unconsumed argument is appended, so the claim is false. -/
theorem c1_counterexample :
    shellSpawnCall "echo %s" ["a", "b"] = ("echo a b", []) ∧
    resolveParamsShell "echo %s" ["a", "b"] = ("echo a", ["b"]) ∧
    ("echo a b" : String) ≠ "echo a" := by
  refine ⟨by decide, by decide, by decide⟩

/-- C1 (amended): in shell mode, after placeholder substitution the
remaining unconsumed arguments are appended to the command string (each
shell-escaped, joined by single spaces) rather than dropped, and the
argument array passed to the spawn primitive is always empty.  When no
arguments remain unconsumed the command line is exactly the substituted
text. -/
theorem c1_amended (command : String) (args : List String) :
    (shellSpawnCall command args).2 = [] ∧
    ((resolveParamsShell command args).2 ≠ [] →
      (shellSpawnCall command args).1 =
        (resolveParamsShell command args).1 ++ " " ++
          String.intercalate " "
            (((resolveParamsShell command args).2).map shellEscape)) ∧
    ((resolveParamsShell command args).2 = [] →
      (shellSpawnCall command args).1 = (resolveParamsShell command args).1) := by
  rcases hr : resolveParamsShell command args with ⟨c, rem⟩
  simp only [shellSpawnCall, hr, appendShellArgs]
  cases rem with
  | nil => simp
  | cons a t => simp

/-- C1 witness: instantiating the amended claim at `echo %s` with
arguments `["a", "b"]`. -/
theorem c1_witness :
    (shellSpawnCall "echo %s" ["a", "b"]).1 =
      (resolveParamsShell "echo %s" ["a", "b"]).1 ++ " " ++
        String.intercalate " "
          (((resolveParamsShell "echo %s" ["a", "b"]).2).map shellEscape) :=
  (c1_amended "echo %s" ["a", "b"]).2.1 (by decide)

/-- When no argument equals the literal `%s`, the cell-cycling `consumeArg`
is a single shift. -/
theorem consumeArg_no_ps (args : List String) (h : "%s" ∉ args) :
    consumeArg args = (args.headD "", args.tail) := by
  cases args with
  | nil => rfl
  | cons a t =>
    have ha : a ≠ "%s" := fun e => h (e ▸ List.mem_cons_self a t)
    simp only [consumeArg]
    by_cases he : a = ""
    · subst he
      simp
    · simp [he, ha]

/-- When no argument equals the literal `%s`, the `indexOf` loop coincides
with the one-argument-per-placeholder substitution of the claim. -/
theorem substTokens_eq_specSubst (ts : List String) (args : List String)
    (h : "%s" ∉ args) : substTokens ts args = specSubst ts args := by
  induction ts generalizing args with
  | nil => rfl
  | cons t ts ih =>
    simp only [substTokens, specSubst]
    by_cases ht : t = "%s"
    · have htail : "%s" ∉ args.tail := fun hm => h (List.mem_of_mem_tail hm)
      rw [if_pos ht, if_pos ht, consumeArg_no_ps args h]
      simp only [ih args.tail htail]
    · rw [if_neg ht, if_neg ht]
      simp only [ih args h]

/-- Leaf collection distributes over list append. -/
theorem leavesList_append (xs ys : List RawArg) :
    leavesList (xs ++ ys) = leavesList xs ++ leavesList ys := by
  induction xs with
  | nil => simp [leavesList]
  | cons x xs ih =>
    cases x <;> simp [leavesList, ih, List.append_assoc]

/-- One level of flattening does not change the leaves. -/
theorem leavesList_flat1 (xs : List RawArg) :
    leavesList (flat1 xs) = leavesList xs := by
  induction xs with
  | nil => rfl
  | cons x xs ih =>
    cases x <;> simp [flat1, leavesList, ih, leavesList_append]

/-- Depth of the deepest element distributes over append as a maximum. -/
theorem depthListAux_append (xs ys : List RawArg) :
    depthListAux (xs ++ ys) = max (depthListAux xs) (depthListAux ys) := by
  induction xs with
  | nil => simp [depthListAux]
  | cons x xs ih => simp [depthListAux, ih, Nat.max_assoc]

/-- One level of flattening lowers the depth bound by one. -/
theorem depthListAux_flat1 (xs : List RawArg) (d : Nat)
    (h : depthListAux xs ≤ d + 1) : depthListAux (flat1 xs) ≤ d := by
  induction xs with
  | nil => simp [flat1, depthListAux]
  | cons x xs ih =>
    rw [depthListAux, Nat.max_le] at h
    cases x with
    | arr ys =>
      rw [depthArg] at h
      rw [flat1, depthListAux_append, Nat.max_le]
      exact ⟨Nat.le_of_succ_le_succ h.1, ih h.2⟩
    | str s =>
      rw [flat1, depthListAux, Nat.max_le]
      exact ⟨by simp [depthArg], ih h.2⟩
    | fls =>
      rw [flat1, depthListAux, Nat.max_le]
      exact ⟨by simp [depthArg], ih h.2⟩
    | nul =>
      rw [flat1, depthListAux, Nat.max_le]
      exact ⟨by simp [depthArg], ih h.2⟩
    | undef =>
      rw [flat1, depthListAux, Nat.max_le]
      exact ⟨by simp [depthArg], ih h.2⟩

/-- A list of depth zero consists of leaves only. -/
theorem leavesList_of_depth_zero (xs : List RawArg)
    (h : depthListAux xs = 0) : leavesList xs = xs := by
  induction xs with
  | nil => rw [leavesList]
  | cons x xs ih =>
    rw [depthListAux] at h
    have hx : depthArg x = 0 := Nat.le_zero.mp (h ▸ Nat.le_max_left _ _)
    have hxs : depthListAux xs = 0 := Nat.le_zero.mp (h ▸ Nat.le_max_right _ _)
    cases x with
    | arr ys => rw [depthArg] at hx; exact absurd hx (Nat.succ_ne_zero _)
    | str s => rw [leavesList, ih hxs]
    | fls => rw [leavesList, ih hxs]
    | nul => rw [leavesList, ih hxs]
    | undef => rw [leavesList, ih hxs]

/-- Flattening to depth `d` collects exactly the leaves whenever the list
nests no deeper than `d`. -/
theorem jsFlat_eq_leaves (d : Nat) (xs : List RawArg)
    (h : depthListAux xs ≤ d) : jsFlat d xs = leavesList xs := by
  induction d generalizing xs with
  | zero => rw [jsFlat, leavesList_of_depth_zero xs (Nat.le_zero.mp h)]
  | succ d ih =>
    rw [jsFlat, ih (flat1 xs) (depthListAux_flat1 xs d h), leavesList_flat1]

/-- C3 counterexample: a leaf nested under eleven array layers survives
`flat(10)` still wrapped in one array, and `filter(Boolean)` keeps that
array because arrays are truthy, so normalization does not return the
non-falsy leaves: the claim fails beyond nesting depth 10. -/
theorem c3_counterexample :
    normalizeArgs [nestedArg 11] = [RawArg.arr [RawArg.str "a"]] ∧
    nonFalsyLeaves [nestedArg 11] = [RawArg.str "a"] ∧
    ([RawArg.arr [RawArg.str "a"]] : List RawArg) ≠ [RawArg.str "a"] := by
  refine ⟨rfl, by simp [nonFalsyLeaves, nestedArg, leavesList, truthyArg], by simp⟩

/-- C3 (amended): for every raw argument list nested at most 10 array
levels deep, normalization returns exactly the non-falsy leaf entries
(dropping `false`, `null`, `undefined` and empty strings) in their original
left-to-right order.  The flattening is `flat(10)`, not unbounded, so the
depth bound is required. -/
theorem c3_amended (raw : List RawArg) (h : depthListAux raw ≤ 10) :
    normalizeArgs raw = nonFalsyLeaves raw := by
  rw [normalizeArgs, nonFalsyLeaves, jsFlat_eq_leaves 10 raw h]

/-- C3 witness: instantiating the amended claim on a two-level list with
every kind of falsy entry. -/
theorem c3_witness :
    normalizeArgs [RawArg.str "a", RawArg.fls,
        RawArg.arr [RawArg.str "", RawArg.nul, RawArg.undef, RawArg.str "b"]] =
      nonFalsyLeaves [RawArg.str "a", RawArg.fls,
        RawArg.arr [RawArg.str "", RawArg.nul, RawArg.undef, RawArg.str "b"]] :=
  c3_amended _ (by simp [depthListAux, depthArg])

/-- C6 counterexample: the claim states that each literal `%s` trailing
token consumes exactly one argument, so for the command `echo %s` with
arguments `["%s", "x"]` the final argument list should be
`["%s"] ++ ["x"]`.  The `indexOf` loop instead re-scans the substituted
cell, finds the freshly written `%s` again and consumes a second argument,
producing `["x"]`. -/
theorem c6_counterexample :
    resolveParamsModel "echo %s" ["%s", "x"] false = ("echo", ["x"]) ∧
    specSubst ((splitOnSpace "echo %s".data).map String.mk).tail ["%s", "x"]
      = (["%s"], ["x"]) ∧
    (("echo", ["x"]) : String × List String) ≠ ("echo", ["%s"] ++ ["x"]) := by
  refine ⟨by decide, by decide, by decide⟩

/-- C6 (amended): in non-shell mode, for a command containing a space and a
normalized argument list none of whose entries is the literal `%s`, the
command is split on spaces, the returned command is the leading token, each
`%s` trailing token is replaced left to right by one shift-consumed argument
(empty string on exhaustion), and the final argument list is the substituted
trailing tokens followed by the unconsumed arguments. -/
theorem c6_amended (command : String) (args : List String)
    (hsp : command.data.contains ' ' = true) (hps : "%s" ∉ args) :
    resolveParamsModel command args false =
      (((splitOnSpace command.data).map String.mk).headD "",
       (specSubst ((splitOnSpace command.data).map String.mk).tail args).1 ++
         (specSubst ((splitOnSpace command.data).map String.mk).tail args).2) := by
  simp only [resolveParamsModel, Bool.false_eq_true, if_false, hsp, if_true]
  rw [substTokens_eq_specSubst _ _ hps]

/-- C6 witness: instantiating the amended claim at `echo %s baz` with
arguments `["foo bar", "qux"]`, the placeholder example of the spec. -/
theorem c6_witness :
    resolveParamsModel "echo %s baz" ["foo bar", "qux"] false =
      (((splitOnSpace "echo %s baz".data).map String.mk).headD "",
       (specSubst ((splitOnSpace "echo %s baz".data).map String.mk).tail
           ["foo bar", "qux"]).1 ++
         (specSubst ((splitOnSpace "echo %s baz".data).map String.mk).tail
           ["foo bar", "qux"]).2) :=
  c6_amended "echo %s baz" ["foo bar", "qux"] (by decide) (by decide)

/-- C7: the shell quoter returns a string unchanged when every character
lies in the class `[A-Za-z0-9_/:=-]`; otherwise it wraps the string in
single quotes escaping embedded quotes, strips the leading run of
empty-quote pairs and collapses the escaped-quote-then-opening-quote
sequence; and quoting `it's` produces a token that a POSIX shell re-parses
to the literal `it's`. -/
theorem c7_shell_quoter :
    (∀ s : String, s.data.all inClass = true → shellEscape s = s) ∧
    (∀ s : String, s ≠ "" → s.data.any (fun c => !(inClass c)) = true →
      shellEscape s = String.mk (collapseEsc (stripLeadingPairs (quoteWrap s.data)))) ∧
    posixParseToken (shellEscape itsStr) = some itsStr := by
  refine ⟨fun s h => ?_, fun s h1 h2 => ?_, by decide⟩
  · rw [shellEscape, if_neg]
    rintro ⟨-, hany⟩
    simp only [List.all_eq_true] at h
    simp only [List.any_eq_true] at hany
    obtain ⟨c, hc, hbad⟩ := hany
    rw [h c hc] at hbad
    simp at hbad
  · rw [shellEscape, if_pos ⟨h1, h2⟩]

/-- C7 witness: the quoter leaves `foo` unchanged and round-trips `it's`. -/
theorem c7_witness :
    shellEscape "foo" = "foo" ∧
    posixParseToken (shellEscape itsStr) = some itsStr :=
  ⟨c7_shell_quoter.1 "foo" (by decide), c7_shell_quoter.2.2⟩

/-- Every write appends exactly one feed event for its chunk, so a folded
run of writes feeds the chunks once each, in order. -/
theorem foldl_writeStep_trace (init : String → Gen) (chunks : List String)
    (st : PipeState) :
    (chunks.foldl (writeStep init) st).trace =
      st.trace ++ chunks.map Ev.feed := by
  induction chunks generalizing st with
  | nil => simp
  | cons c cs ih =>
    rw [List.foldl_cons, ih]
    simp [writeStep]

/-- A write always leaves a created generator behind. -/
theorem foldl_writeStep_gen_isSome (init : String → Gen) (chunks : List String)
    (st : PipeState) (h : st.gen.isSome = true ∨ chunks ≠ []) :
    ((chunks.foldl (writeStep init) st).gen).isSome = true := by
  induction chunks generalizing st with
  | nil =>
    rcases h with h | h
    · simpa using h
    · exact absurd rfl h
  | cons c cs ih =>
    rw [List.foldl_cons]
    exact ih _ (Or.inl rfl)

/-- C4 counterexample: the claim requires the transformer's finalization to
run exactly once after the stream ends, but when the stream ends having
emitted no chunks the generator was never created and `generator?.return()`
is a no-op: the completed pipeline's trace holds no `finalize` event at
all. -/
theorem c4_counterexample :
    (runPipeline (fun c => Gen.yield (some c) (fun _ => Gen.stop)) []).trace
      = [] ∧
    ([] : List Ev).count Ev.finalize ≠ 1 := by
  exact ⟨rfl, by decide⟩

/-- C4 (amended): whenever the stream emits at least one chunk, the
completed pipeline's interaction trace is exactly one feed per emitted
chunk, in emission order, followed by exactly one finalize — the
finalization happens after every chunk and before the pipeline completes.
With no chunks the transformer is never created and never finalized. -/
theorem c4_amended (init : String → Gen) (chunks : List String)
    (h : chunks ≠ []) :
    (runPipeline init chunks).trace = chunks.map Ev.feed ++ [Ev.finalize] := by
  rw [runPipeline]
  have hg := foldl_writeStep_gen_isSome init chunks ⟨none, [], []⟩ (Or.inr h)
  have ht := foldl_writeStep_trace init chunks ⟨none, [], []⟩
  rcases hgen : (chunks.foldl (writeStep init) ⟨none, [], []⟩).gen with - | g
  · rw [hgen] at hg
    simp at hg
  · rw [finalStep, hgen]
    simpa using ht

/-- C4 witness: instantiating the amended claim on an echoing transformer
and two chunks. -/
theorem c4_witness :
    (runPipeline (fun c => Gen.yield (some c) (fun _ => Gen.stop))
        ["x", "y"]).trace =
      (["x", "y"].map Ev.feed) ++ [Ev.finalize] :=
  c4_amended (fun c => Gen.yield (some c) (fun _ => Gen.stop)) ["x", "y"]
    (by simp)

/-- C2: the claim (and the repository's own option documentation) says
that with `reject: false` a failing process resolves normally *and*
exposes the `ChildProcessError` through its `error` field.  Evaluating the
exit listener at exit code 1 with `reject := some false` shows the promise
does resolve, but the resolved process carries no `error` field — the
assignment `proc.error = error` sits inside the `reject !== false` branch,
so it runs exactly when the promise rejects, never on this path. -/
theorem c2_reject_false_no_error_field :
    ∃ p : SettledProc String,
      onExit String Except.ok ["out"] ["err"] false (some false) (some 1) =
        Settled.resolved p ∧ p.errorField = none :=
  ⟨_, rfl, rfl⟩

/-- C9: with the JSON flag set, the awaitable of a zero-exit process
resolves for every decoder — including decoders that fail on the buffered
text — so resolution itself never raises the parse error; the resolved
process's `stdout` accessor performs the decode of the trimmed accumulated
buffer at the moment it is read, and a decode failure surfaces exactly
there. -/
theorem c9_json_decode_lazy (α : Type) (jsonParse : String → Except String α)
    (outChunks errChunks : List String) (reject : Option Bool) :
    ∃ p : SettledProc α,
      onExit α jsonParse outChunks errChunks true reject (some 0) =
        Settled.resolved p ∧
      p.stdoutGet () =
        (jsonParse (jsTrim (String.join outChunks))).map OutRead.json ∧
      (∀ e, jsonParse (jsTrim (String.join outChunks)) = Except.error e →
        p.stdoutGet () = Except.error e) := by
  refine ⟨_, rfl, rfl, fun e he => ?_⟩
  show (jsonParse (jsTrim (String.join outChunks))).map OutRead.json =
    Except.error e
  rw [he]
  rfl

/-- C9 witness: a decoder that always fails still lets the awaitable
resolve, and the parse error appears when the accessor is read. -/
theorem c9_witness :
    ∃ p : SettledProc String,
      onExit String (fun _ => Except.error "bad json") ["not json"] [] true none
          (some 0) =
        Settled.resolved p ∧
      p.stdoutGet () = Except.error "bad json" := by
  obtain ⟨p, h1, -, h3⟩ :=
    c9_json_decode_lazy String (fun _ => Except.error "bad json") ["not json"] []
      none
  exact ⟨p, h1, h3 "bad json" rfl⟩

/-- C10: the `stderr` accessor is installed by
`defineOutputProperty(proc, 'stderr', stderr)` with no options, so for
every settlement that carries a process object — whatever the `json` flag,
`reject` option or exit code — reading `stderr` returns the trimmed
accumulated text and never consults the JSON decoder. -/
theorem c10_stderr_never_json (α : Type) (jsonParse : String → Except String α)
    (outChunks errChunks : List String) (json : Bool) (reject : Option Bool)
    (code : Option Int) (p : SettledProc α)
    (h : (onExit α jsonParse outChunks errChunks json reject code).procOf =
      some p) :
    p.stderrGet () = Except.ok (OutRead.text (jsTrim (String.join errChunks))) := by
  rw [onExit] at h
  by_cases hc : code ≠ some 0
  · rw [if_pos hc] at h
    by_cases hr : reject ≠ some false
    · rw [if_pos hr] at h
      rw [Settled.procOf] at h
      cases h
      rfl
    · rw [if_neg hr] at h
      rw [Settled.procOf] at h
      cases h
      rfl
  · rw [if_neg hc] at h
    rw [Settled.procOf] at h
    cases h
    rfl

/-- C10 witness: instantiating the claim with the JSON flag set and a
stderr buffer that needs trimming. -/
theorem c10_witness :
    ∃ p : SettledProc String,
      (onExit String Except.ok ["o"] ["  e  "] true none (some 0)).procOf =
        some p ∧
      p.stderrGet () = Except.ok (OutRead.text (jsTrim (String.join ["  e  "]))) :=
  ⟨_, rfl,
    c10_stderr_never_json String Except.ok ["o"] ["  e  "] true none (some 0) _
      rfl⟩

/-- C5 counterexample: the claim says a launch failure always rejects
(async) or throws (sync).  The async half holds, but the sync half fails:
the native `spawnSync` reports a launch failure inside its result object
instead of throwing, and the wrapper then completes normally — with `exit`
at its default the null `signal ?? status` is falsy, so it returns the
(null) stdout; with `exit: false` it returns the full result carrying the
raw error.  Nothing is thrown and the process is not terminated. -/
theorem c5_counterexample :
    spawnSyncPost false { exit := none, trimEnd := none }
        (launchFailureResult "spawn foo ENOENT") =
      (SyncOutcome.returnedStdout none, []) ∧
    spawnSyncPost false { exit := some false, trimEnd := none }
        (launchFailureResult "spawn foo ENOENT") =
      (SyncOutcome.returnedResult (launchFailureResult "spawn foo ENOENT"),
        []) :=
  ⟨rfl, rfl⟩

/-- C5 (amended): a launch failure is surfaced as the raw underlying error
without decoration, and the async awaitable rejects with it regardless of
every option; the sync launcher, however, does not throw: the native call
returns the error inside its result, and the wrapper returns the full
result (with `exit: false`) or the null stdout (with `exit` at its
default, since `signal ?? status` is null and therefore falsy), never
terminating the current process. -/
theorem c5_amended (α : Type) (jsonParse : String → Except String α)
    (outChunks errChunks : List String) (json : Bool) (reject : Option Bool)
    (e : String) (traceEnv : Bool) (opts : SyncOpts) (msg : String) :
    settleAsync α jsonParse outChunks errChunks json reject
        (ProcEvent.errored e) = Settled.rejectedRaw e ∧
    spawnSyncPost traceEnv opts (launchFailureResult msg) =
      (if opts.exit = some false then
        (SyncOutcome.returnedResult (launchFailureResult msg), [])
      else (SyncOutcome.returnedStdout none, [])) := by
  refine ⟨rfl, ?_⟩
  have htrim : trimStdout opts (launchFailureResult msg) =
      launchFailureResult msg := by
    rw [trimStdout]
    split
    · rfl
    · rfl
  rw [spawnSyncPost, htrim]
  by_cases hx : opts.exit = some false
  · rw [if_neg (by simpa using hx), if_pos hx]
  · rw [if_pos hx, if_neg hx]
    rfl

/-- C8: with `exit` at its default, the wrapper emits exactly a non-empty
stderr to the diagnostic stream, computes the termination code as
`signal ?? status`, terminates the current process with that code when it
is truthy (printing the stack trace exactly when the trace flag is set),
and otherwise returns the (trimmed) stdout value directly; with `exit`
disabled it returns the full result structure, emits nothing, and never
terminates the current process. -/
theorem c8_sync_exit_policy (traceEnv : Bool) (opts : SyncOpts)
    (r : SyncResult) :
    (opts.exit ≠ some false →
      (spawnSyncPost traceEnv opts r).2 = nonEmptyStderr (trimStdout opts r) ∧
      (∀ c, syncCode (trimStdout opts r) = some c → codeTruthy (some c) = true →
        (spawnSyncPost traceEnv opts r).1 = SyncOutcome.exited c traceEnv) ∧
      (codeTruthy (syncCode (trimStdout opts r)) = false →
        (spawnSyncPost traceEnv opts r).1 =
          SyncOutcome.returnedStdout (trimStdout opts r).stdout)) ∧
    (opts.exit = some false →
      spawnSyncPost traceEnv opts r =
        (SyncOutcome.returnedResult (trimStdout opts r), []) ∧
      ∀ c t, (spawnSyncPost traceEnv opts r).1 ≠ SyncOutcome.exited c t) := by
  constructor
  · intro hx
    rw [spawnSyncPost, if_pos hx]
    split
    · rename_i s heq
      by_cases hs : s = ""
      · subst hs
        rw [if_neg (by simp)]
        refine ⟨rfl, fun c hc ht => ?_, fun _ => rfl⟩
        rw [heq, Option.some_inj] at hc
        subst hc
        simp [codeTruthy] at ht
      · rw [if_pos hs]
        refine ⟨rfl, fun c hc _ => ?_, fun ht => ?_⟩
        · rw [heq, Option.some_inj] at hc
          subst hc
          rfl
        · rw [heq] at ht
          simp [codeTruthy, hs] at ht
    · rename_i n heq
      by_cases hn : n = 0
      · subst hn
        rw [if_neg (by simp)]
        refine ⟨rfl, fun c hc ht => ?_, fun _ => rfl⟩
        rw [heq, Option.some_inj] at hc
        subst hc
        simp [codeTruthy] at ht
      · rw [if_pos hn]
        refine ⟨rfl, fun c hc _ => ?_, fun ht => ?_⟩
        · rw [heq, Option.some_inj] at hc
          subst hc
          rfl
        · rw [heq] at ht
          simp [codeTruthy, hn] at ht
    · rename_i heq
      refine ⟨rfl, fun c hc => ?_, fun _ => rfl⟩
      rw [heq] at hc
      simp at hc
  · intro hx
    rw [spawnSyncPost, if_neg (by simpa using hx)]
    exact ⟨rfl, fun c t h => by cases h⟩

/-- C8 witness: a child that exited with status 3 under default options
terminates the parent with code 3 after echoing its stderr, and the same
result with `exit: false` is returned whole. -/
theorem c8_witness :
    (spawnSyncPost false { exit := none, trimEnd := none }
        { status := some 3, signal := none, stdout := some (OutVal.str "out"),
          stderr := some (OutVal.str "oops"), error := none }).1 =
      SyncOutcome.exited (TermCode.num 3) false ∧
    spawnSyncPost false { exit := some false, trimEnd := none }
        { status := some 3, signal := none, stdout := some (OutVal.str "out"),
          stderr := some (OutVal.str "oops"), error := none } =
      (SyncOutcome.returnedResult
        (trimStdout { exit := some false, trimEnd := none }
          { status := some 3, signal := none, stdout := some (OutVal.str "out"),
            stderr := some (OutVal.str "oops"), error := none }), []) :=
  ⟨((c8_sync_exit_policy false { exit := none, trimEnd := none } _).1
      (by simp)).2.1 (TermCode.num 3) rfl (by decide),
    ((c8_sync_exit_policy false { exit := some false, trimEnd := none } _).2
      rfl).1⟩

end Picospawn
